import Mathlib

/-!
Verification of the card-validation backend (src/backend/index.js, full variant:
the express handler for POST /cards together with preProcess, validateCards and
saveHistory).

The embedding is shallow: JSON values reaching the handler are modelled by the
inductive JSValue; JavaScript numbers by JSNum (a rational, or NaN as produced
by parseInt on digit-less text); the normalizer preProcess, the validator
validateCards and the handler postCards are direct transcriptions of the source.
String-level operations of the source (split on a comma, trim, the isNaN
coercion test, parseInt with radix 10) are modelled on character lists:
splitComma, jsTrim, isNumericString and jsParseInt below.  isNumericString
models the ToNumber string grammar on the fragment this program can meet
(whitespace, empty string, signed decimal literals with fraction and exponent,
Infinity, and unsigned radix literals 0x/0o/0b); uuidv1 is modelled by an
externally supplied fresh identifier passed to postCards.
-/

namespace CardGame

/-- JavaScript numbers as this program can observe them: a JSON number
(a rational) or NaN, which parseInt returns on digit-less text. -/
inductive JSNum where
  | num (q : ℚ)
  | nan
  deriving DecidableEq, Repr

/-- JavaScript comparison a < b on numbers: false whenever NaN is involved. -/
def JSNum.ltB : JSNum → JSNum → Bool
  | .num a, .num b => a < b
  | _, _ => false

/-- JavaScript Number.isInteger: false on NaN, otherwise denominator one. -/
def JSNum.isIntegerB : JSNum → Bool
  | .num q => q.den == 1
  | .nan => false

/-- JSON values that can appear as one element of the submitted cards array. -/
inductive JSValue where
  | str (s : String)
  | num (n : JSNum)
  | bool (b : Bool)
  | null
  | arr (elems : List JSValue)
  | obj (fields : List (String × JSValue))

/-- Whitespace for trimming, as in the source runtime. -/
def jsWhitespace (c : Char) : Bool := c.isWhitespace

/-- Trim on character lists: drop whitespace at both ends (models trim). -/
def trimChars (l : List Char) : List Char :=
  ((l.dropWhile jsWhitespace).reverse.dropWhile jsWhitespace).reverse

/-- Model of part.trim() from the source. -/
def jsTrim (s : String) : String := String.mk (trimChars s.toList)

/-- Split a character list on the comma, as split does in the source;
the empty list yields one empty chunk, as in JavaScript. -/
def splitCommaChars : List Char → List (List Char)
  | [] => [[]]
  | c :: rest =>
      if c = ',' then [] :: splitCommaChars rest
      else
        match splitCommaChars rest with
        | [] => [[c]]
        | h :: t => (c :: h) :: t

/-- Model of card.split(String.singleton (Char.ofNat 44)) from the source. -/
def splitComma (s : String) : List String := (splitCommaChars s.toList).map String.mk

/-- Nonempty all-digit run. -/
def digits1 (l : List Char) : Bool := !l.isEmpty && l.all Char.isDigit

/-- Exponent digits with an optional sign. -/
def expDigits : List Char → Bool
  | '+' :: rest => digits1 rest
  | '-' :: rest => digits1 rest
  | l => digits1 l

/-- Optional exponent suffix of a decimal literal. -/
def expPart : List Char → Bool
  | [] => true
  | 'e' :: rest => expDigits rest
  | 'E' :: rest => expDigits rest
  | _ => false

/-- Tail of a decimal literal whose digit head was empty: a dot followed by
at least one digit, then an optional exponent. -/
def fracPart : List Char → Bool
  | [] => false
  | c :: r2 =>
      if c = '.' then
        !(r2.takeWhile Char.isDigit).isEmpty && expPart (r2.dropWhile Char.isDigit)
      else false

/-- Tail of a decimal literal after a nonempty digit head: nothing, a dot
with optional digits and exponent, or an exponent directly. -/
def restPart : List Char → Bool
  | [] => true
  | c :: r2 => if c = '.' then expPart (r2.dropWhile Char.isDigit) else expPart (c :: r2)

/-- Unsigned decimal numeric literal (digits, optional fraction, optional
exponent, or a fraction starting with the dot) or Infinity. -/
def unsignedDecimal (l : List Char) : Bool :=
  if l = "Infinity".toList then true
  else if (l.takeWhile Char.isDigit).isEmpty then fracPart (l.dropWhile Char.isDigit)
  else restPart (l.dropWhile Char.isDigit)

/-- Hexadecimal digit. -/
def hexDigit (c : Char) : Bool :=
  c.isDigit || ('a' ≤ c && c ≤ 'f') || ('A' ≤ c && c ≤ 'F')

/-- Octal digit. -/
def octDigit (c : Char) : Bool := '0' ≤ c && c ≤ '7'

/-- Unsigned radix literal 0x/0o/0b of the numeric-string grammar. -/
def radixLit : List Char → Bool
  | c :: x :: rest =>
      if c = '0' then
        if x = 'x' || x = 'X' then !rest.isEmpty && rest.all hexDigit
        else if x = 'o' || x = 'O' then !rest.isEmpty && rest.all octDigit
        else if x = 'b' || x = 'B' then !rest.isEmpty && rest.all (fun c => c = '0' || c = '1')
        else false
      else false
  | _ => false

/-- Recognizer for strings whose ToNumber coercion is not NaN: the trimmed
text is empty, a signed decimal literal or Infinity, or a radix literal. -/
def isNumericString (s : String) : Bool :=
  match trimChars s.toList with
  | [] => true
  | c :: rest =>
      if c = '+' then unsignedDecimal rest
      else if c = '-' then unsignedDecimal rest
      else unsignedDecimal (c :: rest) || radixLit (c :: rest)

/-- Model of the isNaN(part) test the source applies to string parts. -/
def jsIsNaN (s : String) : Bool := !isNumericString s

/-- Numeric value of a digit character. -/
def digitVal (c : Char) : Nat := c.toNat - 48

/-- Base-10 value of a digit run. -/
def natFromDigits (l : List Char) : Nat := l.foldl (fun a c => 10 * a + digitVal c) 0

/-- Leading digit run of the remaining text, with the given sign; NaN when
there is no digit, as parseInt behaves. -/
def parseIntDigits (l : List Char) (sign : Int) : JSNum :=
  let ds := l.takeWhile Char.isDigit
  if ds.isEmpty then .nan else .num ((sign * (natFromDigits ds : Int) : Int) : ℚ)

/-- Model of parseInt(part, 10): skip leading whitespace, optional sign, read
the leading decimal-digit run, ignore the rest. -/
def jsParseInt (s : String) : JSNum :=
  match s.toList.dropWhile jsWhitespace with
  | [] => parseIntDigits [] 1
  | c :: rest =>
      if c = '+' then parseIntDigits rest 1
      else if c = '-' then parseIntDigits rest (-1)
      else parseIntDigits (c :: rest) 1

/-- Falsiness of the alphabet accumulator in the source: null or the empty
string are falsy, any other string is truthy. -/
def strFalsy : Option String → Bool
  | none => true
  | some s => s == ""

/-- One step of the forEach over the parts of a delimited string: the first
branch takes a non-numeric part as the alphabet while the accumulator is
falsy, the second takes a numeric part as the number while it is null. -/
def stringStep (st : Option String × Option JSNum) (part : String) :
    Option String × Option JSNum :=
  if strFalsy st.1 && jsIsNaN part then (some part, st.2)
  else if st.2.isNone && !jsIsNaN part then (st.1, some (jsParseInt part))
  else st

/-- One step of the forEach over array items or object values: a string item
fills a falsy alphabet, a number item fills a null number. -/
def valueStep (st : Option String × Option JSNum) : JSValue → Option String × Option JSNum
  | .str s => if strFalsy st.1 then (some s, st.2) else st
  | .num n => if st.2.isNone then (st.1, some n) else st
  | _ => st

/-- Normalized card as built by preProcess: index, optional alphabet,
optional number, error list. -/
structure NormalizedCard where
  id : Nat
  alphabet : Option String
  number : Option JSNum
  errors : List String
  deriving DecidableEq, Repr

/-- The forEach of the string branch: scan the parts with the two
accumulators starting at null. -/
def scanParts (parts : List String) : Option String × Option JSNum :=
  parts.foldl stringStep (none, none)

/-- The forEach of the array and object branches: scan the items or values
with the two accumulators starting at null. -/
def scanValues (vs : List JSValue) : Option String × Option JSNum :=
  vs.foldl valueStep (none, none)

/-- Shared tail of the three shape branches of preProcess: when the alphabet
is still falsy or the number still null, fail with the branch message,
otherwise return the card with an empty error list. -/
def finishCard (id : Nat) (st : Option String × Option JSNum) (msg : String) :
    NormalizedCard :=
  if strFalsy st.1 || st.2.isNone then ⟨id, none, none, [msg]⟩
  else ⟨id, st.1, st.2, []⟩

/-- Transcription of preProcess(card, id): dispatch on the runtime shape,
scan for the first string-like and first number-like component, and fail with
a shape-specific message when either is missing. -/
def preProcess (card : JSValue) (id : Nat) : NormalizedCard :=
  match card with
  | .str s =>
      finishCard id (scanParts ((splitComma s).map jsTrim))
        "Invalid format for input string."
  | .arr items =>
      finishCard id (scanValues items) "Invalid format for input array."
  | .obj fields =>
      finishCard id (scanValues (fields.map Prod.snd))
        "Invalid format for input object."
  | _ => ⟨id, none, none, ["Unknown input type and format."]⟩

/-- Code-unit lexicographic order on character lists, as the source's string
comparison operators behave. -/
def lexLt : List Char → List Char → Bool
  | [], [] => false
  | [], _ :: _ => true
  | _ :: _, [] => false
  | a :: as, b :: bs => if a < b then true else if b < a then false else lexLt as bs

/-- JavaScript string comparison a < b. -/
def jsStrLt (a b : String) : Bool := lexLt a.toList b.toList

/-- Message of the letter rule. -/
def letterError : String := "Card must have a single Alphabet A-Z."

/-- Message of the digit rule. -/
def digitError : String := "Number must be between 0-9."

/-- Message of the pairing rule. -/
def pairingError : String := "Card \"D\" must have the number 3."

/-- Condition of the letter rule in validateCards: null, wrong length, below
the letter A or above the letter Z. -/
def alphabetInvalid : Option String → Bool
  | none => true
  | some s => s.length != 1 || jsStrLt s "A" || jsStrLt "Z" s

/-- Condition of the digit rule in validateCards: null, below zero, above
nine, or not an integer (NaN fails the integer test). -/
def numberInvalid : Option JSNum → Bool
  | none => true
  | some n => JSNum.ltB n (.num 0) || JSNum.ltB (.num 9) n || !n.isIntegerB

/-- The messages the three rules push for a card with the given alphabet and
number, in the order the source evaluates them: letter, digit, pairing (the
pairing condition is alphabet strictly equal to the letter D and number not
strictly equal to three; NaN and null both differ from three). -/
def ruleErrors (a : Option String) (n : Option JSNum) : List String :=
  (if alphabetInvalid a then [letterError] else [])
    ++ (if numberInvalid n then [digitError] else [])
    ++ (if a == some "D" && n != some (JSNum.num 3) then [pairingError] else [])

/-- Transcription of the per-card body of validateCards: skip cards whose
alphabet and number are both null, otherwise append the letter, digit and
pairing messages in this order when their conditions fire. -/
def validateCard (card : NormalizedCard) : NormalizedCard :=
  if card.alphabet = none ∧ card.number = none then card
  else { card with errors := card.errors ++ ruleErrors card.alphabet card.number }

/-- Transcription of validateCards. -/
def validateCards (cards : List NormalizedCard) : List NormalizedCard :=
  cards.map validateCard

/-- One record of the in-memory history log. -/
structure HistoryEntry where
  deckId : Nat
  cardId : Nat
  alphabet : Option String
  number : Option JSNum
  errors : List String
  deriving DecidableEq, Repr

/-- The history record pushed for one card: the deck identifier together with
the card's index, alphabet, number and errors. -/
def mkHistoryEntry (deckId : Nat) (c : NormalizedCard) : HistoryEntry :=
  ⟨deckId, c.id, c.alphabet, c.number, c.errors⟩

/-- Transcription of saveHistory: append one entry per scanned card, all
under the deck identifier generated for this call. -/
def saveHistory (scannedCards : List NormalizedCard) (deckId : Nat)
    (history : List HistoryEntry) : List HistoryEntry :=
  history ++ scannedCards.map (mkHistoryEntry deckId)

/-- Responses the handler can produce once it holds an array of cards: the
deck-size rejection (no per-card detail), the invalid-deck response carrying
discardCount and invalidCards, or the acceptance signal. -/
inductive CardsResponse where
  | deckSizeError (validationResult : String)
  | invalidDeck (validationResult : String) (discardCount : Nat)
      (invalidCards : List NormalizedCard)
  | validDeck (validationResult : String)
  deriving DecidableEq, Repr

/-- cards.map with the element index, as the handler maps preProcess. -/
def mapWithIndex (f : Nat → JSValue → NormalizedCard) : Nat → List JSValue → List NormalizedCard
  | _, [] => []
  | i, c :: rest => f i c :: mapWithIndex f (i + 1) rest

/-- The cleanedCards local of the handler. -/
def pipelineCleaned (cards : List JSValue) : List NormalizedCard :=
  mapWithIndex (fun i c => preProcess c i) 0 cards

/-- The validatedCards local of the handler. -/
def pipelineValidated (cards : List JSValue) : List NormalizedCard :=
  validateCards (pipelineCleaned cards)

/-- The invalidCards local of the handler: validated cards whose error list
is nonempty (the errors field is always an array, hence always truthy). -/
def pipelineInvalid (cards : List JSValue) : List NormalizedCard :=
  (pipelineValidated cards).filter fun c => !c.errors.isEmpty

/-- Transcription of the handler body from the 20-card gate on: reject other
sizes outright, otherwise normalize, validate, record history under a fresh
deck identifier (uuidv1 modelled by the deckId argument), and answer with the
invalid-deck detail or the acceptance signal. -/
def postCards (cards : List JSValue) (deckId : Nat) (history : List HistoryEntry) :
    CardsResponse × List HistoryEntry :=
  if cards.length ≠ 20 then
    (.deckSizeError "The deck must have 20 cards.", history)
  else if (pipelineInvalid cards).length > 0 then
    (.invalidDeck "Invalid card data." (pipelineInvalid cards).length
        (pipelineInvalid cards),
      saveHistory (pipelineValidated cards) deckId history)
  else
    (.validDeck "Deck is valid", saveHistory (pipelineValidated cards) deckId history)

/-- The feedback encoding of a validated card used by the idempotence
property: its alphabet and number fields presented as a loose record. -/
def refeed (c : NormalizedCard) : JSValue :=
  .obj [("alphabet", match c.alphabet with | some s => .str s | none => .null),
        ("number", match c.number with | some n => .num n | none => .null)]

/-- Specification-side reading of the letter rule: exactly one character,
inside the inclusive range from A to Z. -/
def letterOkSpec (a : Option String) : Prop :=
  ∃ c : Char, a = some (String.mk [c]) ∧ 'A' ≤ c ∧ c ≤ 'Z'

/-- Specification-side reading of the digit rule: an integer between zero
and nine inclusive. -/
def digitOkSpec (n : Option JSNum) : Prop :=
  ∃ k : ℤ, n = some (.num (k : ℚ)) ∧ 0 ≤ k ∧ k ≤ 9

/-- First of two options, as the scan accumulators behave. -/
def optOr {α : Type} : Option α → Option α → Option α
  | some a, _ => some a
  | none, b => b

theorem optOr_none {α : Type} (b : Option α) : optOr none b = b := rfl

theorem optOr_some {α : Type} (a : α) (b : Option α) : optOr (some a) b = some a := rfl

theorem jsIsNaN_empty : jsIsNaN "" = false := by decide

theorem ne_empty_of_jsIsNaN {s : String} (h : jsIsNaN s = true) : s ≠ "" := by
  intro he; rw [he] at h; exact absurd h (by decide)

theorem strFalsy_of_jsIsNaN {s : String} (h : jsIsNaN s = true) :
    strFalsy (some s) = false := by
  have hne := ne_empty_of_jsIsNaN h
  simp [strFalsy, hne]

/-- The forEach of the string branch computes, in each accumulator, the first
part of the matching kind: first non-numeric part, first numeric part. -/
theorem stringScan_go (l : List String) :
    ∀ (a : Option String) (n : Option JSNum),
      (∀ s, a = some s → jsIsNaN s = true) →
      l.foldl stringStep (a, n) =
        (optOr a (l.find? fun p => jsIsNaN p),
         optOr n ((l.find? fun p => !jsIsNaN p).map jsParseInt)) := by
  induction l with
  | nil =>
      intro a n _
      cases a <;> cases n <;> rfl
  | cons p tl ih =>
      intro a n ha
      have hstep : List.foldl stringStep (a, n) (p :: tl) =
          List.foldl stringStep (stringStep (a, n) p) tl := rfl
      by_cases hp : jsIsNaN p = true
      · have hf1 : (p :: tl).find? (fun q => jsIsNaN q) = some p :=
          List.find?_cons_of_pos _ hp
        have hf2 : (p :: tl).find? (fun q => !jsIsNaN q) =
            tl.find? (fun q => !jsIsNaN q) :=
          List.find?_cons_of_neg _ (by simp [hp])
        cases a with
        | none =>
            have h1 : stringStep (none, n) p = (some p, n) := by
              simp [stringStep, strFalsy, hp]
            rw [hstep, h1, ih (some p) n (fun s hs => by cases hs; exact hp), hf1, hf2]
            rfl
        | some s =>
            have hfalsy : strFalsy (some s) = false := strFalsy_of_jsIsNaN (ha s rfl)
            have h1 : stringStep (some s, n) p = (some s, n) := by
              simp [stringStep, hfalsy, hp]
            rw [hstep, h1, ih (some s) n ha, hf1, hf2]
            rfl
      · have hp' : jsIsNaN p = false := by
          cases hb : jsIsNaN p
          · rfl
          · exact absurd hb hp
        have hf1 : (p :: tl).find? (fun q => jsIsNaN q) =
            tl.find? (fun q => jsIsNaN q) :=
          List.find?_cons_of_neg _ (by simp [hp'])
        have hf2 : (p :: tl).find? (fun q => !jsIsNaN q) = some p :=
          List.find?_cons_of_pos _ (by simp [hp'])
        cases n with
        | none =>
            have h1 : stringStep (a, none) p = (a, some (jsParseInt p)) := by
              simp [stringStep, hp']
            rw [hstep, h1, ih a (some (jsParseInt p)) ha, hf1, hf2]
            cases a <;> rfl
        | some m =>
            have h1 : stringStep (a, some m) p = (a, some m) := by
              simp [stringStep, hp']
            rw [hstep, h1, ih a (some m) ha, hf1, hf2]
            cases a <;> rfl

/-- The string-branch scan in closed form. -/
theorem scanParts_eq (parts : List String) :
    scanParts parts =
      (parts.find? fun p => jsIsNaN p,
       (parts.find? fun p => !jsIsNaN p).map jsParseInt) := by
  unfold scanParts
  rw [stringScan_go parts none none (fun s hs => by cases hs)]
  rfl

/-- The string branch of preProcess in closed form: the first non-numeric
part becomes the alphabet, the base-10 integer parse of the first numeric
part becomes the number, and the card fails when either kind is absent. -/
theorem preProcess_str_eq (s : String) (i : Nat) :
    preProcess (.str s) i =
      match ((splitComma s).map jsTrim).find? (fun p => jsIsNaN p),
            ((splitComma s).map jsTrim).find? (fun p => !jsIsNaN p) with
      | some a, some n => ⟨i, some a, some (jsParseInt n), []⟩
      | _, _ => ⟨i, none, none, ["Invalid format for input string."]⟩ := by
  show finishCard i (scanParts ((splitComma s).map jsTrim)) _ = _
  rw [scanParts_eq]
  cases hf1 : ((splitComma s).map jsTrim).find? (fun p => jsIsNaN p) with
  | none => cases hf2 : ((splitComma s).map jsTrim).find? (fun p => !jsIsNaN p) <;> rfl
  | some a =>
      cases hf2 : ((splitComma s).map jsTrim).find? (fun p => !jsIsNaN p) with
      | none => simp [finishCard]
      | some n =>
          have hna : jsIsNaN a = true := List.find?_some hf1
          have : strFalsy (some a) = false := strFalsy_of_jsIsNaN hna
          simp [finishCard, this]

theorem finishCard_shape (i : Nat) (st : Option String × Option JSNum) (msg : String) :
    ((finishCard i st msg).alphabet = none ∧ (finishCard i st msg).number = none ∧
      (finishCard i st msg).errors = [msg])
    ∨ (∃ l num, st.1 = some l ∧ l ≠ "" ∧ st.2 = some num ∧
        finishCard i st msg = ⟨i, some l, some num, []⟩) := by
  unfold finishCard
  split
  · exact Or.inl ⟨rfl, rfl, rfl⟩
  · rename_i hcond
    right
    rw [Bool.or_eq_true, not_or] at hcond
    obtain ⟨h1, h2⟩ := hcond
    cases hs1 : st.1 with
    | none => rw [hs1] at h1; exact absurd rfl h1
    | some l =>
        cases hs2 : st.2 with
        | none => rw [hs2] at h2; exact absurd rfl h2
        | some num =>
            refine ⟨l, num, rfl, ?_, rfl, rfl⟩
            intro he
            rw [hs1, he] at h1
            exact h1 (by decide)

/-- Every normalized card either failed completely (both fields null, one
shape-specific message) or succeeded (a nonempty alphabet, a number, no
errors). -/
theorem preProcess_shape (card : JSValue) (i : Nat) :
    ((preProcess card i).alphabet = none ∧ (preProcess card i).number = none ∧
      ∃ m, (preProcess card i).errors = [m])
    ∨ (∃ l num, (preProcess card i).alphabet = some l ∧ l ≠ "" ∧
        (preProcess card i).number = some num ∧ (preProcess card i).errors = []) := by
  have hfin : ∀ (st : Option String × Option JSNum) (msg : String),
      ((finishCard i st msg).alphabet = none ∧ (finishCard i st msg).number = none ∧
        ∃ m, (finishCard i st msg).errors = [m])
      ∨ (∃ l num, (finishCard i st msg).alphabet = some l ∧ l ≠ "" ∧
          (finishCard i st msg).number = some num ∧ (finishCard i st msg).errors = []) := by
    intro st msg
    rcases finishCard_shape i st msg with ⟨h1, h2, h3⟩ | ⟨l, num, _, hl, _, he⟩
    · exact Or.inl ⟨h1, h2, msg, h3⟩
    · exact Or.inr ⟨l, num, by rw [he], hl, by rw [he], by rw [he]⟩
  cases card with
  | str s => exact hfin _ _
  | arr items => exact hfin _ _
  | obj fields => exact hfin _ _
  | num n => exact Or.inl ⟨rfl, rfl, _, rfl⟩
  | bool b => exact Or.inl ⟨rfl, rfl, _, rfl⟩
  | null => exact Or.inl ⟨rfl, rfl, _, rfl⟩

theorem preProcess_id (card : JSValue) (i : Nat) : (preProcess card i).id = i := by
  have hfin : ∀ (st : Option String × Option JSNum) (msg : String),
      (finishCard i st msg).id = i := by
    intro st msg
    unfold finishCard
    split <;> rfl
  cases card with
  | str s => exact hfin _ _
  | arr items => exact hfin _ _
  | obj fields => exact hfin _ _
  | num n => rfl
  | bool b => rfl
  | null => rfl

theorem validateCard_not_skipped (c : NormalizedCard)
    (h : ¬(c.alphabet = none ∧ c.number = none)) :
    validateCard c = { c with errors := c.errors ++ ruleErrors c.alphabet c.number } := by
  unfold validateCard
  rw [if_neg h]

theorem validateCard_alphabet (c : NormalizedCard) :
    (validateCard c).alphabet = c.alphabet := by
  unfold validateCard
  split <;> rfl

theorem validateCard_number (c : NormalizedCard) :
    (validateCard c).number = c.number := by
  unfold validateCard
  split <;> rfl

theorem validateCard_id (c : NormalizedCard) : (validateCard c).id = c.id := by
  unfold validateCard
  split <;> rfl

theorem mem_ruleErrors_letter (a : Option String) (n : Option JSNum) :
    letterError ∈ ruleErrors a n ↔ alphabetInvalid a = true := by
  unfold ruleErrors
  split <;> split <;> split <;>
    simp_all [letterError, digitError, pairingError]

theorem mem_ruleErrors_digit (a : Option String) (n : Option JSNum) :
    digitError ∈ ruleErrors a n ↔ numberInvalid n = true := by
  unfold ruleErrors
  split <;> split <;> split <;>
    simp_all [letterError, digitError, pairingError]

theorem mem_ruleErrors_pairing (a : Option String) (n : Option JSNum) :
    pairingError ∈ ruleErrors a n ↔
      (a == some "D" && n != some (JSNum.num 3)) = true := by
  unfold ruleErrors
  split <;> split <;> split <;>
    simp_all [letterError, digitError, pairingError]

theorem lexLt_single (a b : Char) : lexLt [a] [b] = decide (a < b) := by
  unfold lexLt
  by_cases h : a < b
  · simp [h]
  · by_cases h2 : b < a <;> simp [lexLt, h, h2]

/-- The letter condition of the source fails to fire exactly on a single
character lying between A and Z inclusive. -/
theorem alphabetInvalid_eq_false_iff (a : Option String) :
    alphabetInvalid a = false ↔ letterOkSpec a := by
  cases a with
  | none => simp [alphabetInvalid, letterOkSpec]
  | some s =>
      obtain ⟨data⟩ := s
      simp only [alphabetInvalid, Bool.or_eq_false_iff, bne_eq_false_iff_eq, letterOkSpec,
        Option.some.injEq]
      constructor
      · rintro ⟨⟨hlen, hA⟩, hZ⟩
        have hlen' : data.length = 1 := hlen
        obtain ⟨c, rfl⟩ := List.length_eq_one.mp hlen'
        refine ⟨c, rfl, ?_, ?_⟩
        · have : jsStrLt (String.mk [c]) "A" = decide (c < 'A') := lexLt_single c 'A'
          rw [this] at hA
          exact not_lt.mp (of_decide_eq_false hA)
        · have : jsStrLt "Z" (String.mk [c]) = decide ('Z' < c) := lexLt_single 'Z' c
          rw [this] at hZ
          exact not_lt.mp (of_decide_eq_false hZ)
      · rintro ⟨c, hc, h1, h2⟩
        have : data = [c] := by
          have := congrArg String.data hc
          exact this
        subst this
        refine ⟨⟨rfl, ?_⟩, ?_⟩
        · have : jsStrLt (String.mk [c]) "A" = decide (c < 'A') := lexLt_single c 'A'
          rw [this]
          exact decide_eq_false_iff_not.mpr (not_lt.mpr h1)
        · have : jsStrLt "Z" (String.mk [c]) = decide ('Z' < c) := lexLt_single 'Z' c
          rw [this]
          exact decide_eq_false_iff_not.mpr (not_lt.mpr h2)

/-- The digit condition of the source fails to fire exactly on an integer
between zero and nine inclusive (NaN always fires it). -/
theorem numberInvalid_eq_false_iff (n : Option JSNum) :
    numberInvalid n = false ↔ digitOkSpec n := by
  cases n with
  | none => simp [numberInvalid, digitOkSpec]
  | some m =>
      cases m with
      | nan => simp [numberInvalid, digitOkSpec, JSNum.ltB, JSNum.isIntegerB]
      | num q =>
          simp only [numberInvalid, JSNum.ltB, JSNum.isIntegerB, Bool.or_eq_false_iff,
            Bool.not_eq_false', beq_iff_eq, decide_eq_false_iff_not, not_lt, digitOkSpec,
            Option.some.injEq, JSNum.num.injEq]
          constructor
          · rintro ⟨⟨h0, h9⟩, hden⟩
            refine ⟨q.num, ?_, ?_, ?_⟩
            · exact ((Rat.den_eq_one_iff q).mp hden).symm
            · exact Rat.num_nonneg.mpr h0
            · have hq : (q.num : ℚ) = q := (Rat.den_eq_one_iff q).mp hden
              have : (q.num : ℚ) ≤ (9 : ℚ) := by rw [hq]; exact h9
              exact_mod_cast this
          · rintro ⟨k, hk, h0, h9⟩
            subst hk
            refine ⟨⟨?_, ?_⟩, Rat.den_intCast k⟩
            · exact_mod_cast h0
            · exact_mod_cast h9

theorem dropWhile_eq_self {α : Type} (p : α → Bool) (l : List α)
    (h : ∀ c ∈ l, p c = false) : l.dropWhile p = l := by
  cases l with
  | nil => rfl
  | cons c cs =>
      rw [List.dropWhile_cons, if_neg]
      rw [h c (List.mem_cons_self c cs)]
      simp

theorem trimChars_eq_self (l : List Char) (h : ∀ c ∈ l, jsWhitespace c = false) :
    trimChars l = l := by
  unfold trimChars
  rw [dropWhile_eq_self _ _ h,
    dropWhile_eq_self _ _ (fun c hc => h c (List.mem_reverse.mp hc)),
    List.reverse_reverse]

theorem jsTrim_eq_self (s : String) (h : ∀ c ∈ s.toList, jsWhitespace c = false) :
    jsTrim s = s := by
  unfold jsTrim
  rw [trimChars_eq_self _ h]
  rfl

theorem splitCommaChars_no_comma (l : List Char) (h : ',' ∉ l) :
    splitCommaChars l = [l] := by
  induction l with
  | nil => rfl
  | cons c cs ih =>
      have hc : ¬(c = ',') := fun hc => h (hc ▸ List.mem_cons_self c cs)
      have hcs : ',' ∉ cs := fun hm => h (List.mem_cons_of_mem _ hm)
      simp only [splitCommaChars, if_neg hc, ih hcs]

theorem splitCommaChars_append (l1 l2 : List Char) (h : ',' ∉ l1) :
    splitCommaChars (l1 ++ ',' :: l2) = l1 :: splitCommaChars l2 := by
  induction l1 with
  | nil => simp [splitCommaChars]
  | cons c cs ih =>
      have hc : ¬(c = ',') := fun hc => h (hc ▸ List.mem_cons_self c cs)
      have hcs : ',' ∉ cs := fun hm => h (List.mem_cons_of_mem _ hm)
      simp only [List.cons_append, splitCommaChars, if_neg hc]
      rw [List.append_eq, ih hcs]

/-- Splitting a two-chunk string on the comma, when neither chunk holds a
comma, yields exactly the two chunks. -/
theorem splitComma_pair (a b : String) (ha : ',' ∉ a.toList) (hb : ',' ∉ b.toList) :
    splitComma (a ++ "," ++ b) = [a, b] := by
  unfold splitComma
  have hdata : (a ++ "," ++ b).toList = a.toList ++ ',' :: b.toList := by
    show (a ++ "," ++ b).data = a.data ++ ',' :: b.data
    rw [String.data_append, String.data_append, List.append_assoc]
    rfl
  rw [hdata, splitCommaChars_append _ _ ha, splitCommaChars_no_comma _ hb]
  rfl

theorem mapWithIndex_length (f : Nat → JSValue → NormalizedCard) :
    ∀ (i : Nat) (l : List JSValue), (mapWithIndex f i l).length = l.length := by
  intro i l
  induction l generalizing i with
  | nil => rfl
  | cons c cs ih => simp [mapWithIndex, ih]

theorem mapWithIndex_get (f : Nat → JSValue → NormalizedCard) :
    ∀ (l : List JSValue) (i j : Nat) (hj : j < (mapWithIndex f i l).length)
      (hj2 : j < l.length),
      (mapWithIndex f i l).get ⟨j, hj⟩ = f (i + j) (l.get ⟨j, hj2⟩) := by
  intro l
  induction l with
  | nil => intro i j hj hj2; exact absurd hj2 (by simp)
  | cons c cs ih =>
      intro i j hj hj2
      cases j with
      | zero => simp [mapWithIndex]
      | succ k =>
          have hk2 : k < cs.length := by
            simp only [List.length_cons] at hj2
            omega
          have hk : k < (mapWithIndex f (i + 1) cs).length := by
            rw [mapWithIndex_length]
            exact hk2
          have : (mapWithIndex f i (c :: cs)).get ⟨k + 1, hj⟩ =
              (mapWithIndex f (i + 1) cs).get ⟨k, hk⟩ := rfl
          rw [this, ih (i + 1) k hk hk2]
          congr 1
          omega

theorem digit_toNat_bounds (m : Char) (hm : m.isDigit = true) :
    48 ≤ m.toNat ∧ m.toNat ≤ 57 := by
  simp only [Char.isDigit, Bool.and_eq_true, decide_eq_true_eq] at hm
  obtain ⟨h1, h2⟩ := hm
  constructor
  · have := UInt32.le_def.mp h1
    rw [BitVec.le_def] at this
    exact this
  · have := UInt32.le_def.mp h2
    rw [BitVec.le_def] at this
    exact this

theorem upper_toNat_lb (L : Char) (h1 : 'A' ≤ L) : 65 ≤ L.toNat := by
  have hA : Char.val 'A' ≤ L.val := Char.le_def.mp h1
  have := UInt32.le_def.mp hA
  rw [BitVec.le_def] at this
  exact this

theorem isDigit_eq_false_of_upper (L : Char) (h1 : 'A' ≤ L) : L.isDigit = false := by
  cases hd : L.isDigit
  · rfl
  · exfalso
    have hb := digit_toNat_bounds L hd
    have hA := upper_toNat_lb L h1
    omega

theorem char_ge_of_isDigit {c : Char} (h : c.isDigit = true) : '0' ≤ c := by
  simp only [Char.isDigit, Bool.and_eq_true, decide_eq_true_eq] at h
  exact Char.le_def.mpr h.1

theorem jsWhitespace_eq_false_of_ge (c : Char) (h : '0' ≤ c) :
    jsWhitespace c = false := by
  cases hw : jsWhitespace c
  · rfl
  · exfalso
    simp only [jsWhitespace, Char.isWhitespace, Bool.or_eq_true, decide_eq_true_eq] at hw
    rcases hw with ((h1 | h1) | h1) | h1 <;>
      (rw [h1] at h; exact absurd h (by decide))

theorem digit_ne_plus {c : Char} (h : c.isDigit = true) : c ≠ '+' := by
  intro he
  rw [he] at h
  exact absurd h (by decide)

theorem digit_ne_minus {c : Char} (h : c.isDigit = true) : c ≠ '-' := by
  intro he
  rw [he] at h
  exact absurd h (by decide)

theorem upper_ne {L : Char} (h1 : 'A' ≤ L) {c : Char} (hc : c < 'A') : L ≠ c := by
  intro he
  rw [he] at h1
  exact absurd (lt_of_lt_of_le hc h1) (lt_irrefl c)

/-- A single uppercase letter is not numeric text. -/
theorem isNumericString_single_upper (L : Char) (h1 : 'A' ≤ L) (h2 : L ≤ 'Z') :
    isNumericString (String.mk [L]) = false := by
  have hd : L.isDigit = false := isDigit_eq_false_of_upper L h1
  have hws : ∀ c ∈ [L], jsWhitespace c = false := by
    intro c hc
    rw [List.mem_singleton] at hc
    subst hc
    exact jsWhitespace_eq_false_of_ge _ (le_trans (by decide) h1)
  have hplus : ¬(L = '+') := upper_ne h1 (by decide)
  have hminus : ¬(L = '-') := upper_ne h1 (by decide)
  have hdot : ¬(L = '.') := upper_ne h1 (by decide)
  have h8 : ¬(([L] : List Char) = "Infinity".toList) := by
    intro he
    have hlen := congrArg List.length he
    have h8' : ("Infinity".toList).length = 8 := by decide
    rw [h8'] at hlen
    simp at hlen
  have htw : ([L] : List Char).takeWhile Char.isDigit = [] := by
    rw [List.takeWhile_cons, hd]
    simp
  have hdw : ([L] : List Char).dropWhile Char.isDigit = [L] := by
    rw [List.dropWhile_cons, hd]
    simp
  have hu : unsignedDecimal [L] = false := by
    unfold unsignedDecimal
    rw [if_neg h8, htw, hdw]
    simp only [List.isEmpty_nil, if_true, fracPart, if_neg hdot]
  have hr : radixLit [L] = false := rfl
  unfold isNumericString
  have htr : trimChars (String.mk [L]).toList = [L] := trimChars_eq_self [L] hws
  rw [htr]
  simp only [if_neg hplus, if_neg hminus, hu, hr, Bool.or_false]

/-- Text of the form one digit, a dot, then digits is numeric. -/
theorem isNumericString_digit_dot (m : Char) (f : List Char) (hm : m.isDigit = true)
    (hf : ∀ c ∈ f, c.isDigit = true) :
    isNumericString (String.mk (m :: '.' :: f)) = true := by
  have hdotd : ('.' : Char).isDigit = false := by decide
  have hws : ∀ c ∈ m :: '.' :: f, jsWhitespace c = false := by
    intro c hc
    rcases List.mem_cons.mp hc with rfl | hc2
    · exact jsWhitespace_eq_false_of_ge c (char_ge_of_isDigit hm)
    rcases List.mem_cons.mp hc2 with rfl | hc3
    · decide
    · exact jsWhitespace_eq_false_of_ge c (char_ge_of_isDigit (hf c hc3))
  have hplus : ¬(m = '+') := digit_ne_plus hm
  have hminus : ¬(m = '-') := digit_ne_minus hm
  have h8 : ¬((m :: '.' :: f) = "Infinity".toList) := by
    intro he
    have hh := congrArg List.head? he
    have hI : ("Infinity".toList).head? = some 'I' := by decide
    simp only [List.head?_cons, hI, Option.some.injEq] at hh
    rw [hh] at hm
    exact absurd hm (by decide)
  have htw : (m :: '.' :: f).takeWhile Char.isDigit = [m] := by
    rw [List.takeWhile_cons, hm]
    simp [List.takeWhile_cons, hdotd]
  have hdw : (m :: '.' :: f).dropWhile Char.isDigit = '.' :: f := by
    rw [List.dropWhile_cons, hm]
    simp [List.dropWhile_cons, hdotd]
  have hdwf : f.dropWhile Char.isDigit = [] := by
    rw [List.dropWhile_eq_nil_iff]
    exact hf
  have hu : unsignedDecimal (m :: '.' :: f) = true := by
    unfold unsignedDecimal
    rw [if_neg h8, htw, hdw]
    simp only [List.isEmpty_cons, Bool.false_eq_true, if_false, restPart, if_pos rfl, hdwf]
    rfl
  unfold isNumericString
  have htr : trimChars (String.mk (m :: '.' :: f)).toList = m :: '.' :: f :=
    trimChars_eq_self _ hws
  rw [htr]
  simp only [if_neg hplus, if_neg hminus, hu, Bool.true_or]

/-- Base-10 integer parsing of one digit, a dot, then arbitrary text yields
the digit's value (the truncation the source performs). -/
theorem jsParseInt_digit_dot (m : Char) (f : List Char) (hm : m.isDigit = true) :
    jsParseInt (String.mk (m :: '.' :: f)) = .num ((digitVal m : Nat) : ℚ) := by
  have hdotd : ('.' : Char).isDigit = false := by decide
  have hwsm : jsWhitespace m = false :=
    jsWhitespace_eq_false_of_ge m (char_ge_of_isDigit hm)
  have hplus : ¬(m = '+') := digit_ne_plus hm
  have hminus : ¬(m = '-') := digit_ne_minus hm
  have htw : (m :: '.' :: f).takeWhile Char.isDigit = [m] := by
    rw [List.takeWhile_cons, hm]
    simp [List.takeWhile_cons, hdotd]
  have hpd : parseIntDigits (m :: '.' :: f) 1 = .num ((digitVal m : Nat) : ℚ) := by
    unfold parseIntDigits
    rw [htw]
    simp only [List.isEmpty_cons, Bool.false_eq_true, if_false]
    have hv : natFromDigits [m] = digitVal m := by
      unfold natFromDigits
      simp [List.foldl_cons]
    rw [hv]
    norm_num
  have hdw : ((String.mk (m :: '.' :: f)).toList).dropWhile jsWhitespace =
      m :: '.' :: f := by
    show (m :: '.' :: f).dropWhile jsWhitespace = _
    rw [List.dropWhile_cons, hwsm]
    simp
  unfold jsParseInt
  rw [hdw]
  simp only [if_neg hplus, if_neg hminus, hpd]

theorem bool_eq_true_iff_not_eq_false (b : Bool) : b = true ↔ ¬(b = false) := by
  cases b <;> simp

theorem preProcess_errors_empty (raw : JSValue) (i : Nat)
    (h : ¬((preProcess raw i).alphabet = none ∧ (preProcess raw i).number = none)) :
    (preProcess raw i).errors = [] := by
  rcases preProcess_shape raw i with ⟨h1, h2, _⟩ | ⟨l, num, _, _, _, he⟩
  · exact absurd ⟨h1, h2⟩ h
  · exact he

theorem validateCard_errors_eq (raw : JSValue) (i : Nat)
    (h : ¬((preProcess raw i).alphabet = none ∧ (preProcess raw i).number = none)) :
    (validateCard (preProcess raw i)).errors =
      ruleErrors (preProcess raw i).alphabet (preProcess raw i).number := by
  rw [validateCard_not_skipped _ h]
  simp [preProcess_errors_empty raw i h]

/-- C1: on every normalized card that validation does not skip (letter and
digit not both null), the letter message is appended exactly when the letter
is not a single character between A and Z, and the digit message exactly when
the digit is not an integer between 0 and 9; the two rules are independent,
so both messages can be present together. -/
theorem c1_letter_digit_rules (raw : JSValue) (i : Nat)
    (h : ¬((preProcess raw i).alphabet = none ∧ (preProcess raw i).number = none)) :
    (letterError ∈ (validateCard (preProcess raw i)).errors ↔
        ¬ letterOkSpec (preProcess raw i).alphabet)
    ∧ (digitError ∈ (validateCard (preProcess raw i)).errors ↔
        ¬ digitOkSpec (preProcess raw i).number) := by
  rw [validateCard_errors_eq raw i h]
  constructor
  · rw [mem_ruleErrors_letter, bool_eq_true_iff_not_eq_false]
    exact not_congr (alphabetInvalid_eq_false_iff _)
  · rw [mem_ruleErrors_digit, bool_eq_true_iff_not_eq_false]
    exact not_congr (numberInvalid_eq_false_iff _)

/-- Witness for C1 at the card "c,28": the lowercase letter and the
out-of-range digit each append their message on the same card. -/
theorem c1_witness :
    letterError ∈ (validateCard (preProcess (.str "c,28") 0)).errors
    ∧ digitError ∈ (validateCard (preProcess (.str "c,28") 0)).errors := by
  have h := c1_letter_digit_rules (.str "c,28") 0 (by decide)
  refine ⟨h.1.mpr ?_, h.2.mpr ?_⟩
  · intro hok
    have hfalse := (alphabetInvalid_eq_false_iff _).mpr hok
    exact absurd hfalse (by decide)
  · intro hok
    have hfalse := (numberInvalid_eq_false_iff _).mpr hok
    exact absurd hfalse (by decide)

/-- C2: on every normalized card whose letter is D, whatever raw shape it
came from, the pairing message is appended exactly when the number is not
the number three. -/
theorem c2_pairing_rule (raw : JSValue) (i : Nat)
    (h : (preProcess raw i).alphabet = some "D") :
    pairingError ∈ (validateCard (preProcess raw i)).errors ↔
      ¬((preProcess raw i).number = some (JSNum.num 3)) := by
  have hnb : ¬((preProcess raw i).alphabet = none ∧ (preProcess raw i).number = none) := by
    intro hc
    rw [h] at hc
    exact Option.some_ne_none _ hc.1
  rw [validateCard_errors_eq raw i hnb, mem_ruleErrors_pairing, h]
  simp [bne_iff_ne]

/-- Witness for C2: the string card "D,4" receives the pairing message, the
loose record carrying D and 3 does not. -/
theorem c2_witness :
    pairingError ∈ (validateCard (preProcess (.str "D,4") 0)).errors
    ∧ pairingError ∉
        (validateCard
          (preProcess (.obj [("sideA", .str "D"), ("sideB", .num (.num 3))]) 0)).errors := by
  constructor
  · exact (c2_pairing_rule (.str "D,4") 0 (by decide)).mpr (by decide)
  · intro hmem
    exact absurd
      ((c2_pairing_rule (.obj [("sideA", .str "D"), ("sideB", .num (.num 3))]) 0
          (by decide)).mp hmem)
      (by decide)

/-- C4: a submitted array of any length other than twenty is rejected with
the single batch-level message before normalization or validation runs: the
response carries no discardCount and no invalidCards (the deckSizeError
constructor has no such fields) and the history log is untouched. -/
theorem c4_batch_size_gate (cards : List JSValue) (deckId : Nat)
    (history : List HistoryEntry) (h : cards.length ≠ 20) :
    postCards cards deckId history =
      (.deckSizeError "The deck must have 20 cards.", history) := by
  unfold postCards
  rw [if_pos h]

/-- Witness for C4 at a batch of nineteen cards. -/
theorem c4_witness :
    postCards (List.replicate 19 (.str "A,1")) 0 [] =
      (.deckSizeError "The deck must have 20 cards.", []) :=
  c4_batch_size_gate _ 0 [] (by decide)

/-- C5: a card whose letter and digit are both null after normalization is
returned by the validator unchanged, carrying exactly its one parse error;
no rule is evaluated and no message is appended. -/
theorem c5_parse_failure_short_circuit (raw : JSValue) (i : Nat)
    (h : (preProcess raw i).alphabet = none ∧ (preProcess raw i).number = none) :
    validateCard (preProcess raw i) = preProcess raw i
    ∧ (preProcess raw i).errors.length = 1 := by
  constructor
  · unfold validateCard
    rw [if_pos h]
  · rcases preProcess_shape raw i with ⟨_, _, m, hm⟩ | ⟨l, num, hl, _, _, _⟩
    · rw [hm]
      rfl
    · rw [hl] at h
      exact absurd h.1 (Option.some_ne_none _)

/-- Witness for C5 at the unparsable card "Test". -/
theorem c5_witness :
    validateCard (preProcess (.str "Test") 0) = preProcess (.str "Test") 0
    ∧ (preProcess (.str "Test") 0).errors.length = 1 :=
  c5_parse_failure_short_circuit (.str "Test") 0 (by decide)

/-- C6: on a delimited string the normalizer takes the first part that fails
the numeric test as the letter and the base-10 integer parse of the first
part that passes it as the digit, failing when either kind is absent; in
particular two strings whose trimmed parts are the same letter part and
numeric part in either order normalize identically. -/
theorem c6_string_first_of_kind (s : String) (i : Nat) :
    (preProcess (.str s) i =
      match ((splitComma s).map jsTrim).find? (fun p => jsIsNaN p),
            ((splitComma s).map jsTrim).find? (fun p => !jsIsNaN p) with
      | some a, some n => ⟨i, some a, some (jsParseInt n), []⟩
      | _, _ => ⟨i, none, none, ["Invalid format for input string."]⟩)
    ∧ (∀ s2 a n, (splitComma s).map jsTrim = [a, n] →
        (splitComma s2).map jsTrim = [n, a] →
        jsIsNaN a = true → jsIsNaN n = false →
        preProcess (.str s2) i = preProcess (.str s) i) := by
  refine ⟨preProcess_str_eq s i, ?_⟩
  intro s2 a n hps hps2 hna hnn
  rw [preProcess_str_eq s i, preProcess_str_eq s2 i, hps, hps2]
  have hfa : ([a, n].find? fun p => jsIsNaN p) = some a := List.find?_cons_of_pos _ hna
  have hfa2 : ([n, a].find? fun p => jsIsNaN p) = some a := by
    rw [List.find?_cons_of_neg _ (by simp [hnn])]
    exact List.find?_cons_of_pos _ hna
  have hfn : ([a, n].find? fun p => !jsIsNaN p) = some n := by
    rw [List.find?_cons_of_neg _ (by simp [hna])]
    exact List.find?_cons_of_pos _ (by simp [hnn])
  have hfn2 : ([n, a].find? fun p => !jsIsNaN p) = some n :=
    List.find?_cons_of_pos _ (by simp [hnn])
  rw [hfa, hfa2, hfn, hfn2]

/-- Witness for C6: the strings "A,1" and "1,A" normalize to the same card. -/
theorem c6_witness : preProcess (.str "1,A") 0 = preProcess (.str "A,1") 0 :=
  (c6_string_first_of_kind "A,1" 0).2 "1,A" "A" "1" (by decide) (by decide) (by decide)
    (by decide)

theorem mapWithIndex_getElem (f : Nat → JSValue → NormalizedCard) :
    ∀ (l : List JSValue) (i j : Nat) (hj : j < (mapWithIndex f i l).length)
      (hj2 : j < l.length), (mapWithIndex f i l)[j] = f (i + j) l[j] := by
  intro l
  induction l with
  | nil => intro i j hj hj2; exact absurd hj2 (by simp)
  | cons c cs ih =>
      intro i j hj hj2
      cases j with
      | zero => simp [mapWithIndex]
      | succ k =>
          have hk2 : k < cs.length := by
            simp only [List.length_cons] at hj2
            omega
          have hk : k < (mapWithIndex f (i + 1) cs).length := by
            rw [mapWithIndex_length]
            exact hk2
          have hstep : (mapWithIndex f i (c :: cs))[k + 1] =
              (mapWithIndex f (i + 1) cs)[k] := rfl
          rw [hstep, ih (i + 1) k hk hk2]
          have harg : i + 1 + k = i + (k + 1) := by omega
          rw [harg]
          rfl

/-- C7: for a twenty-card batch, when some validated card has a nonempty
error list the response is the invalid-deck record whose discardCount counts
exactly the validated cards with nonempty errors and whose invalidCards are
exactly those cards; when every card has an empty error list the response is
the bare acceptance signal, whose constructor carries neither field. -/
theorem c7_response_shape (cards : List JSValue) (deckId : Nat)
    (history : List HistoryEntry) (h : cards.length = 20) :
    (pipelineInvalid cards ≠ [] →
      (postCards cards deckId history).1 =
        .invalidDeck "Invalid card data."
          ((pipelineValidated cards).countP fun c => !c.errors.isEmpty)
          (pipelineInvalid cards))
    ∧ (pipelineInvalid cards = [] →
      (postCards cards deckId history).1 = .validDeck "Deck is valid")
    ∧ (∀ c, c ∈ pipelineInvalid cards ↔ c ∈ pipelineValidated cards ∧ c.errors ≠ []) := by
  have hne : ¬ cards.length ≠ 20 := fun hc => hc h
  refine ⟨?_, ?_, ?_⟩
  · intro hinv
    have hpos : (pipelineInvalid cards).length > 0 := List.length_pos.mpr hinv
    have hcount : ((pipelineValidated cards).countP fun c => !c.errors.isEmpty)
        = (pipelineInvalid cards).length := List.countP_eq_length_filter _ _
    unfold postCards
    rw [if_neg hne, if_pos hpos, hcount]
  · intro hinv
    have hlen : ¬((pipelineInvalid cards).length > 0) := by
      rw [hinv]
      simp
    unfold postCards
    rw [if_neg hne, if_neg hlen]
  · intro c
    unfold pipelineInvalid
    rw [List.mem_filter]
    constructor
    · rintro ⟨h1, h2⟩
      refine ⟨h1, fun hc => ?_⟩
      rw [hc] at h2
      simp at h2
    · rintro ⟨h1, h2⟩
      refine ⟨h1, ?_⟩
      cases he : c.errors.isEmpty with
      | false => rfl
      | true => exact absurd (List.isEmpty_iff.mp he) h2

/-- Witness for C7 at an all-valid batch of twenty cards. -/
theorem c7_witness :
    (postCards (List.replicate 20 (.str "A,1")) 0 []).1 = .validDeck "Deck is valid" :=
  (c7_response_shape (List.replicate 20 (.str "A,1")) 0 [] (by decide)).2.1 (by decide)

/-- C9: processing a twenty-card batch appends exactly twenty history
entries, one per validated card and carrying its index, alphabet, number and
errors through mkHistoryEntry, all under the single deck identifier
generated for the batch, whatever the validation outcome; the previously
recorded prefix of the log is preserved unchanged. -/
theorem c9_history_append (cards : List JSValue) (deckId : Nat)
    (history : List HistoryEntry) (h : cards.length = 20) :
    ((postCards cards deckId history).2
        = history ++ (pipelineValidated cards).map (mkHistoryEntry deckId))
    ∧ (pipelineValidated cards).length = 20
    ∧ (postCards cards deckId history).2.take history.length = history
    ∧ (postCards cards deckId history).2.length = history.length + 20
    ∧ (∀ e ∈ (postCards cards deckId history).2.drop history.length, e.deckId = deckId)
    ∧ (∀ j, ∀ hj : j < (pipelineValidated cards).length,
        ((pipelineValidated cards).get ⟨j, hj⟩).id = j) := by
  have hne : ¬ cards.length ≠ 20 := fun hc => hc h
  have h2 : (postCards cards deckId history).2 =
      history ++ (pipelineValidated cards).map (mkHistoryEntry deckId) := by
    unfold postCards
    rw [if_neg hne]
    split <;> rfl
  have hvlen : (pipelineValidated cards).length = 20 := by
    unfold pipelineValidated validateCards pipelineCleaned
    rw [List.length_map, mapWithIndex_length]
    exact h
  refine ⟨h2, hvlen, ?_, ?_, ?_, ?_⟩
  · rw [h2]
    exact List.take_left history _
  · rw [h2, List.length_append, List.length_map, hvlen]
  · intro e he
    rw [h2, List.drop_left] at he
    obtain ⟨c, _, rfl⟩ := List.mem_map.mp he
    rfl
  · intro j hj
    have hj2 : j < (pipelineCleaned cards).length := by
      unfold pipelineValidated validateCards at hj
      rw [List.length_map] at hj
      exact hj
    have hj3 : j < cards.length := by
      unfold pipelineCleaned at hj2
      rw [mapWithIndex_length] at hj2
      exact hj2
    rw [List.get_eq_getElem]
    show ((validateCards (pipelineCleaned cards))[j]).id = j
    unfold validateCards
    rw [List.getElem_map, validateCard_id]
    show ((mapWithIndex (fun k c => preProcess c k) 0 cards)[j]).id = j
    rw [mapWithIndex_getElem (fun k c => preProcess c k) cards 0 j (by
      rw [mapWithIndex_length]; exact hj3) hj3]
    rw [preProcess_id]
    omega

/-- Witness for C9 at an all-valid batch of twenty cards appended to the
empty log. -/
theorem c9_witness :
    (postCards (List.replicate 20 (.str "A,1")) 3 []).2 =
      [] ++ (pipelineValidated (List.replicate 20 (.str "A,1"))).map (mkHistoryEntry 3) :=
  (c9_history_append (List.replicate 20 (.str "A,1")) 3 [] (by decide)).1

theorem finishCard_success (i : Nat) (l : String) (num : JSNum) (msg : String)
    (hl : ¬(l = "")) :
    finishCard i (some l, some num) msg = ⟨i, some l, some num, []⟩ := by
  unfold finishCard
  simp [strFalsy, hl]

theorem scanValues_pair_str_num (l : String) (n : JSNum) :
    scanValues [.str l, .num n] = (some l, some n) := by
  unfold scanValues
  simp [valueStep, strFalsy]

theorem scanValues_pair_num_str (l : String) (n : JSNum) :
    scanValues [.num n, .str l] = (some l, some n) := by
  unfold scanValues
  simp [valueStep, strFalsy]

/-- A delimited string made of a trimmed comma-free non-numeric chunk, a
comma, then a trimmed comma-free numeric chunk normalizes to that letter and
the base-10 parse of that chunk. -/
theorem preProcess_pair_letter_first (l ds : String) (i : Nat)
    (hl1 : jsIsNaN l = true) (hl2 : jsTrim l = l) (hl3 : ',' ∉ l.toList)
    (hd1 : jsIsNaN ds = false) (hd3 : jsTrim ds = ds) (hd4 : ',' ∉ ds.toList) :
    preProcess (.str (l ++ "," ++ ds)) i = ⟨i, some l, some (jsParseInt ds), []⟩ := by
  rw [preProcess_str_eq, splitComma_pair l ds hl3 hd4]
  have hmap : ([l, ds].map jsTrim) = [l, ds] := by
    rw [List.map_cons, List.map_cons, List.map_nil, hl2, hd3]
  rw [hmap, List.find?_cons_of_pos _ hl1, List.find?_cons_of_neg _ (by simp [hl1]),
    List.find?_cons_of_pos _ (by simp [hd1])]

/-- The same with the numeric chunk first: the scan is order-independent. -/
theorem preProcess_pair_number_first (l ds : String) (i : Nat)
    (hl1 : jsIsNaN l = true) (hl2 : jsTrim l = l) (hl3 : ',' ∉ l.toList)
    (hd1 : jsIsNaN ds = false) (hd3 : jsTrim ds = ds) (hd4 : ',' ∉ ds.toList) :
    preProcess (.str (ds ++ "," ++ l)) i = ⟨i, some l, some (jsParseInt ds), []⟩ := by
  rw [preProcess_str_eq, splitComma_pair ds l hd4 hl3]
  have hmap : ([ds, l].map jsTrim) = [ds, l] := by
    rw [List.map_cons, List.map_cons, List.map_nil, hl2, hd3]
  rw [hmap, List.find?_cons_of_neg _ (by simp [hd1]), List.find?_cons_of_pos _ hl1,
    List.find?_cons_of_pos _ (by simp [hd1])]

/-- Counterexample to C3 as universally stated: the pair with letter text
"7" and digit 1 is carried by the delimited string "7,1" and by the array
with the string "7" and the number 1, yet the two normalize differently (the
string shape fails completely because "7" is numeric text, while the array
shape succeeds with letter "7"). -/
theorem c3_counterexample :
    ¬((preProcess (.str "7,1") 0).alphabet
        = (preProcess (.arr [.str "7", .num (.num 1)]) 0).alphabet
      ∧ (preProcess (.str "7,1") 0).number
        = (preProcess (.arr [.str "7", .num (.num 1)]) 0).number) := by
  decide

/-- C3 amended: for every letter that is trimmed, comma-free, non-numeric
text and every digit given both as a JS number and as matching numeric text,
the six carriers — delimited string, two-element array and two-field record
with arbitrary keys, each in both orders — all normalize to the same letter
and digit. -/
theorem c3_shape_order_independence_amended
    (l ds : String) (d : ℚ) (k1 k2 : String) (i : Nat)
    (hl1 : jsIsNaN l = true) (hl2 : jsTrim l = l) (hl3 : ',' ∉ l.toList)
    (hd1 : jsIsNaN ds = false) (hd2 : jsParseInt ds = .num d)
    (hd3 : jsTrim ds = ds) (hd4 : ',' ∉ ds.toList) :
    preProcess (.str (l ++ "," ++ ds)) i = ⟨i, some l, some (.num d), []⟩
    ∧ preProcess (.str (ds ++ "," ++ l)) i = ⟨i, some l, some (.num d), []⟩
    ∧ preProcess (.arr [.str l, .num (.num d)]) i = ⟨i, some l, some (.num d), []⟩
    ∧ preProcess (.arr [.num (.num d), .str l]) i = ⟨i, some l, some (.num d), []⟩
    ∧ preProcess (.obj [(k1, .str l), (k2, .num (.num d))]) i
        = ⟨i, some l, some (.num d), []⟩
    ∧ preProcess (.obj [(k1, .num (.num d)), (k2, .str l)]) i
        = ⟨i, some l, some (.num d), []⟩ := by
  have hlne : ¬(l = "") := ne_empty_of_jsIsNaN hl1
  refine ⟨?_, ?_, ?_, ?_, ?_, ?_⟩
  · rw [preProcess_pair_letter_first l ds i hl1 hl2 hl3 hd1 hd3 hd4, hd2]
  · rw [preProcess_pair_number_first l ds i hl1 hl2 hl3 hd1 hd3 hd4, hd2]
  · show finishCard i (scanValues [.str l, .num (.num d)]) _ = _
    rw [scanValues_pair_str_num]
    exact finishCard_success i l (.num d) _ hlne
  · show finishCard i (scanValues [.num (.num d), .str l]) _ = _
    rw [scanValues_pair_num_str]
    exact finishCard_success i l (.num d) _ hlne
  · show finishCard i (scanValues [.str l, .num (.num d)]) _ = _
    rw [scanValues_pair_str_num]
    exact finishCard_success i l (.num d) _ hlne
  · show finishCard i (scanValues [.num (.num d), .str l]) _ = _
    rw [scanValues_pair_num_str]
    exact finishCard_success i l (.num d) _ hlne

/-- Witness for the amended C3 at letter "A", digit 1. -/
theorem c3_witness :
    preProcess (.str ("A" ++ "," ++ "1")) 0 = ⟨0, some "A", some (.num 1), []⟩ :=
  (c3_shape_order_independence_amended "A" "1" 1 "sideA" "sideB" 0 (by decide)
    (by decide) (by decide) (by decide) (by decide) (by decide) (by decide)).1

/-- Counterexample to C8 as universally stated: the unparsable card "Test"
validates to the string-shape parse error, but refeeding its null letter and
digit as a loose record yields the object-shape parse error, a different
error set. -/
theorem c8_counterexample :
    ¬((validateCard (preProcess (refeed (validateCard (preProcess (.str "Test") 0))) 0)).errors
        = (validateCard (preProcess (.str "Test") 0)).errors) := by
  decide

/-- C8 amended: for every card whose normalization succeeds (letter not
null), refeeding the validated card's letter and digit as a loose record and
running the normalizer and validator again reproduces the identical error
list. -/
theorem c8_idempotence_amended (raw : JSValue) (i j : Nat)
    (h : ¬((preProcess raw i).alphabet = none)) :
    (validateCard (preProcess (refeed (validateCard (preProcess raw i))) j)).errors
      = (validateCard (preProcess raw i)).errors := by
  rcases preProcess_shape raw i with ⟨h1, _, _⟩ | ⟨l, num, hl, hlne, hnum, herr⟩
  · exact absurd h1 h
  · have hnb : ¬((preProcess raw i).alphabet = none ∧ (preProcess raw i).number = none) := by
      intro hc
      rw [hl] at hc
      exact Option.some_ne_none _ hc.1
    have hrf : refeed (validateCard (preProcess raw i)) =
        .obj [("alphabet", .str l), ("number", .num num)] := by
      unfold refeed
      rw [validateCard_alphabet, validateCard_number, hl, hnum]
    have hpp : preProcess (.obj [("alphabet", .str l), ("number", .num num)]) j =
        ⟨j, some l, some num, []⟩ := by
      show finishCard j (scanValues [.str l, .num num]) _ = _
      rw [scanValues_pair_str_num]
      exact finishCard_success j l num _ hlne
    have hnb2 : ¬((⟨j, some l, some num, []⟩ : NormalizedCard).alphabet = none
        ∧ (⟨j, some l, some num, []⟩ : NormalizedCard).number = none) := by
      intro hc
      exact Option.some_ne_none _ hc.1
    rw [hrf, hpp, validateCard_not_skipped _ hnb2, validateCard_not_skipped _ hnb]
    show [] ++ ruleErrors (some l) (some num) =
      (preProcess raw i).errors
        ++ ruleErrors (preProcess raw i).alphabet (preProcess raw i).number
    rw [herr, hl, hnum]

/-- Witness for the amended C8 at the card "A,1". -/
theorem c8_witness :
    (validateCard (preProcess (refeed (validateCard (preProcess (.str "A,1") 0))) 0)).errors
      = (validateCard (preProcess (.str "A,1") 0)).errors :=
  c8_idempotence_amended (.str "A,1") 0 0 (by decide)

theorem alphabetInvalid_single_upper (L : Char) (h1 : 'A' ≤ L) (h2 : L ≤ 'Z') :
    alphabetInvalid (some (String.mk [L])) = false := by
  have e2f : jsStrLt (String.mk [L]) "A" = false := by
    show lexLt [L] ['A'] = false
    rw [lexLt_single]
    exact decide_eq_false_iff_not.mpr (not_lt.mpr h1)
  have e3f : jsStrLt "Z" (String.mk [L]) = false := by
    show lexLt ['Z'] [L] = false
    rw [lexLt_single]
    exact decide_eq_false_iff_not.mpr (not_lt.mpr h2)
  show ((String.mk [L]).length != 1 || jsStrLt (String.mk [L]) "A"
    || jsStrLt "Z" (String.mk [L])) = false
  rw [e2f, e3f]
  rfl

theorem ruleErrors_nil (a : Option String) (n : Option JSNum)
    (h1 : alphabetInvalid a = false) (h2 : numberInvalid n = false)
    (h3 : (a == some "D" && n != some (JSNum.num 3)) = false) :
    ruleErrors a n = [] := by
  unfold ruleErrors
  rw [h1, h2, h3]
  rfl

theorem numberInvalid_digitVal (m : Char) (hm : m.isDigit = true) :
    numberInvalid (some (.num ((digitVal m : Nat) : ℚ))) = false := by
  apply (numberInvalid_eq_false_iff _).mpr
  refine ⟨(digitVal m : ℤ), ?_, ?_, ?_⟩
  · norm_num
  · exact Int.natCast_nonneg _
  · have hb := digit_toNat_bounds m hm
    have : digitVal m ≤ 9 := by
      unfold digitVal
      omega
    exact_mod_cast this

/-- Counterexample to C10 as universally stated: "A,28.7" has fractional
numeric text; the normalizer accepts it, truncating the digit to 28, but the
validator then reports the digit-rule error, not an empty error list. -/
theorem c10_counterexample :
    (preProcess (.str "A,28.7") 0).number = some (.num 28)
    ∧ ¬((validateCard (preProcess (.str "A,28.7") 0)).errors = []) := by
  decide

/-- C10 amended: for a delimited string whose letter part is one character
between A and Z and whose numeric part is one digit, a dot, then digits (and
a letter D only with digit 3), the normalizer accepts the card with the
digit truncated by base-10 integer parsing to the leading digit, and the
validator reports no errors; fractional numeric text is never rejected as
such by the digit rule. -/
theorem c10_fractional_truncation_amended (L m : Char) (f : String) (i : Nat)
    (hL1 : 'A' ≤ L) (hL2 : L ≤ 'Z') (hm : m.isDigit = true)
    (hfd : ∀ c ∈ f.toList, c.isDigit = true)
    (hD : L = 'D' → m = '3') :
    preProcess (.str (String.mk [L] ++ "," ++ String.mk (m :: '.' :: f.toList))) i
      = ⟨i, some (String.mk [L]), some (.num ((digitVal m : Nat) : ℚ)), []⟩
    ∧ (validateCard (preProcess
        (.str (String.mk [L] ++ "," ++ String.mk (m :: '.' :: f.toList))) i)).errors
      = [] := by
  have hl1 : jsIsNaN (String.mk [L]) = true := by
    unfold jsIsNaN
    rw [isNumericString_single_upper L hL1 hL2]
    rfl
  have hwsl : ∀ c ∈ (String.mk [L]).toList, jsWhitespace c = false := by
    intro c hc
    have hc2 : c ∈ [L] := hc
    rw [List.mem_singleton] at hc2
    subst hc2
    exact jsWhitespace_eq_false_of_ge _ (le_trans (by decide) hL1)
  have hl2 : jsTrim (String.mk [L]) = String.mk [L] := jsTrim_eq_self _ hwsl
  have hl3 : ',' ∉ (String.mk [L]).toList := by
    intro hc
    have hc2 : (',' : Char) ∈ [L] := hc
    rw [List.mem_singleton] at hc2
    exact upper_ne hL1 (by decide) hc2.symm
  have hd1 : jsIsNaN (String.mk (m :: '.' :: f.toList)) = false := by
    unfold jsIsNaN
    rw [isNumericString_digit_dot m f.toList hm hfd]
    rfl
  have hwsd : ∀ c ∈ (String.mk (m :: '.' :: f.toList)).toList, jsWhitespace c = false := by
    intro c hc
    have hc1 : c ∈ m :: '.' :: f.toList := hc
    rcases List.mem_cons.mp hc1 with rfl | hc2
    · exact jsWhitespace_eq_false_of_ge _ (char_ge_of_isDigit hm)
    rcases List.mem_cons.mp hc2 with rfl | hc3
    · decide
    · exact jsWhitespace_eq_false_of_ge _ (char_ge_of_isDigit (hfd c hc3))
  have hd3 : jsTrim (String.mk (m :: '.' :: f.toList)) = String.mk (m :: '.' :: f.toList) :=
    jsTrim_eq_self _ hwsd
  have hd4 : ',' ∉ (String.mk (m :: '.' :: f.toList)).toList := by
    intro hc
    have hc1 : (',' : Char) ∈ m :: '.' :: f.toList := hc
    rcases List.mem_cons.mp hc1 with he | hc2
    · rw [← he] at hm
      exact absurd hm (by decide)
    rcases List.mem_cons.mp hc2 with he | hc3
    · exact absurd he (by decide)
    · have := hfd ',' hc3
      exact absurd this (by decide)
  have hfirst : preProcess
      (.str (String.mk [L] ++ "," ++ String.mk (m :: '.' :: f.toList))) i
      = ⟨i, some (String.mk [L]), some (.num ((digitVal m : Nat) : ℚ)), []⟩ := by
    rw [preProcess_pair_letter_first _ _ i hl1 hl2 hl3 hd1 hd3 hd4,
      jsParseInt_digit_dot m f.toList hm]
  refine ⟨hfirst, ?_⟩
  rw [hfirst]
  have hnb : ¬((⟨i, some (String.mk [L]), some (.num ((digitVal m : Nat) : ℚ)), []⟩ :
      NormalizedCard).alphabet = none
      ∧ (⟨i, some (String.mk [L]), some (.num ((digitVal m : Nat) : ℚ)), []⟩ :
      NormalizedCard).number = none) := by
    intro hc
    exact Option.some_ne_none _ hc.1
  rw [validateCard_not_skipped _ hnb]
  show [] ++ ruleErrors (some (String.mk [L])) (some (.num ((digitVal m : Nat) : ℚ))) = []
  have halpha := alphabetInvalid_single_upper L hL1 hL2
  have hnum := numberInvalid_digitVal m hm
  have hpair : (some (String.mk [L]) == some "D"
      && some (JSNum.num ((digitVal m : Nat) : ℚ)) != some (JSNum.num 3)) = false := by
    by_cases hLD : L = 'D'
    · have hm3 : m = '3' := hD hLD
      subst hm3
      have hval : ((digitVal '3' : Nat) : ℚ) = 3 := by
        have h3 : (digitVal '3' : Nat) = 3 := by decide
        rw [h3]
        norm_num
      rw [hval]
      simp
    · have hne2 : ¬(some (String.mk [L]) = some "D") := by
        intro he
        apply hLD
        have h5 : String.mk [L] = "D" := Option.some.inj he
        have h6 : [L] = ['D'] := congrArg String.data h5
        exact (List.cons.injEq L [] 'D' []).mp h6 |>.1
      rw [beq_eq_false_iff_ne.mpr hne2]
      rfl
  rw [List.nil_append]
  exact ruleErrors_nil _ _ halpha hnum hpair

/-- Witness for the amended C10 at the card "A,2.7": digit 2, no errors. -/
theorem c10_witness :
    preProcess (.str (String.mk ['A'] ++ "," ++ String.mk ['2', '.', '7'])) 0
      = ⟨0, some (String.mk ['A']), some (.num ((digitVal '2' : Nat) : ℚ)), []⟩
    ∧ (validateCard (preProcess
        (.str (String.mk ['A'] ++ "," ++ String.mk ['2', '.', '7'])) 0)).errors = [] :=
  c10_fractional_truncation_amended 'A' '2' "7" 0 (by decide) (by decide) (by decide)
    (by decide) (by decide)

end CardGame
